import Mathlib

/-!
Shallow embedding of the apartments-prague repository
(src/crawler.py, src/main.py, src/models.py) in Lean 4.

Modelling conventions:
* Python strings are `List Char` (`Str`).
* Python `Optional`/missing dict keys are `Option`.
* Python exceptions (KeyError, ZeroDivisionError) are `Except Unit`.
* Python float fields (latitude/longitude) are carried opaquely as
  `Option Int`; no arithmetic is ever performed on them, and no claim
  depends on float semantics.
* The SQL store is a `List Apartment`; the SQLModel session's
  existence check (`select ... where hash_id == h`) is `List.any`,
  and `session.add` appends.  The session autoflushes, so in-run
  additions are visible to later existence checks of the same run;
  commit happens at the end of the run, and an exception rolls the
  whole run back (modelled by `Except.error`, in which case the store
  keeps its pre-run value).
* `datetime.now()` timestamps are abstracted to a `now : Nat`
  parameter per run; no claim depends on intra-run clock readings.
-/

namespace ApartmentsPrague

abbrev Str := List Char

/-- Value of a (non-empty) string of ASCII digits, as Python `int()`. -/
def digitsVal (ds : Str) : Nat :=
  ds.foldl (fun acc c => acc * 10 + (c.toNat - 48)) 0

/-- Python regex `\s` (whitespace), restricted to the ASCII whitespace
characters; Python additionally matches rarer Unicode spaces, which no
input considered here contains. -/
def isPySpace (c : Char) : Bool :=
  c == ' ' || c == '\t' || c == '\n' || c == '\r' ||
  c == '\x0b' || c == '\x0c'

/-- Python `str.lower()` restricted to ASCII letters and the Czech
upper-case letters appearing in this code base; identity elsewhere. -/
def pyToLower (c : Char) : Char :=
  if 65 ≤ c.toNat ∧ c.toNat ≤ 90 then Char.ofNat (c.toNat + 32)
  else if c == 'Á' then 'á'
  else if c == 'Č' then 'č'
  else if c == 'Ď' then 'ď'
  else if c == 'É' then 'é'
  else if c == 'Ě' then 'ě'
  else if c == 'Í' then 'í'
  else if c == 'Ň' then 'ň'
  else if c == 'Ó' then 'ó'
  else if c == 'Ř' then 'ř'
  else if c == 'Š' then 'š'
  else if c == 'Ť' then 'ť'
  else if c == 'Ú' then 'ú'
  else if c == 'Ů' then 'ů'
  else if c == 'Ý' then 'ý'
  else if c == 'Ž' then 'ž'
  else c

def pyLower (s : Str) : Str := s.map pyToLower

/-- Python substring test `needle in hay`. -/
def pyInStr (needle : Str) : Str → Bool
  | [] => needle.isEmpty
  | c :: t => needle.isPrefixOf (c :: t) || pyInStr needle t

/-- The literal square-meter marker of the regex in
`extract_size_and_layout` (crawler.py line 22). -/
def sqmMarker : Str := "m²".toList

/-- Leftmost-match search for the Python regex `(\d+)\s*m²`
(crawler.py line 22), returning the captured digits' value.
At each start position the engine takes the maximal digit run, then the
maximal whitespace run, then requires the literal marker; backtracking
can never help because a shorter digit run is followed by a digit
(neither whitespace nor `m`) and a shorter whitespace run is followed
by a whitespace character (not `m`). -/
def findSize : Str → Option Nat
  | [] => none
  | c :: rest =>
    if !((c :: rest).takeWhile Char.isDigit).isEmpty &&
        sqmMarker.isPrefixOf
          (((c :: rest).dropWhile Char.isDigit).dropWhile isPySpace) then
      some (digitsVal ((c :: rest).takeWhile Char.isDigit))
    else findSize rest

/-- Python regex `\w` (word character), restricted to ASCII; Python
additionally matches Unicode letters, which no layout token considered
here needs. -/
def isPyWord (c : Char) : Bool :=
  c.isAlphanum || c == '_'

/-- Leftmost-match search for the Python regex `(\d+\+\w+)`
(crawler.py line 26): maximal digit run, literal `+`, maximal non-empty
word-character run, captured verbatim. -/
def findLayout : Str → Option Str
  | [] => none
  | c :: rest =>
    let ds := (c :: rest).takeWhile Char.isDigit
    let r1 := (c :: rest).dropWhile Char.isDigit
    match ds, r1 with
    | _ :: _, '+' :: r2 =>
      let ws := r2.takeWhile isPyWord
      if !ws.isEmpty then some (ds ++ '+' :: ws) else findLayout rest
    | _, _ => findLayout rest

/-- crawler.py lines 19-29, `SrealityCrawler.extract_size_and_layout`. -/
def extract_size_and_layout (name : Str) : Option Nat × Option Str :=
  (findSize name, findLayout name)

def kwPraha : Str := "Praha".toList
def kwPrague : Str := "Prague".toList
def kwPraze : Str := "Praze".toList

/-- crawler.py line 33. -/
def prague_keywords : List Str := [kwPraha, kwPrague, kwPraze]

/-- crawler.py lines 31-34, `SrealityCrawler.is_prague_locality`:
case-sensitive substring test. -/
def is_prague_locality (locality : Str) : Bool :=
  prague_keywords.any (fun keyword => pyInStr keyword locality)

def kwGarage : Str := "garage".toList
def kwGaraz : Str := "Garáž".toList
def kwParkovani : Str := "Parkování".toList
def kwParkingLots : Str := "parking_lots".toList

/-- crawler.py line 38. -/
def garage_keywords : List Str := [kwGarage, kwGaraz, kwParkovani, kwParkingLots]

/-- One label's test from crawler.py lines 42 and 48:
`any(keyword.lower() in label.lower() for keyword in garage_keywords)`. -/
def labelHasGarageKw (label : Str) : Bool :=
  garage_keywords.any (fun keyword => pyInStr (pyLower keyword) (pyLower label))

/-- crawler.py lines 36-51, `SrealityCrawler.has_garage`; the source's
early-return loops are `List.any`. -/
def has_garage (labels : List Str) (labels_all : List (List Str)) : Bool :=
  labels.any labelHasGarageKw ||
  labels_all.any (fun label_group => label_group.any labelHasGarageKw)

/-- The loop body of crawler.py lines 57-58: collect `image_link["href"]`
for each element in order; an element lacking the href key raises
KeyError. -/
def collectHrefs : List (Option Str) → Except Unit (List Str)
  | [] => .ok []
  | none :: _ => .error ()
  | some url :: t => (collectHrefs t).map (fun urls => url :: urls)

/-- crawler.py lines 53-59, `SrealityCrawler.extract_images`.
The `_links` dict is modelled by its only accessed part: `none` when it
has no key named images, otherwise the list of elements, each element
being `some url` when it carries an href key and `none` when it lacks
one (in which case `image_link["href"]` raises KeyError). -/
def extract_images : Option (List (Option Str)) → Except Unit (List Str)
  | none => .ok []
  | some imgs => collectHrefs imgs

/-- models.py lines 8-27, the persisted entity.  The DB-assigned
autoincrement primary key `id` is not modelled (no claim touches it). -/
structure Apartment where
  hash_id : Int
  name : Str
  price : Int
  price_unit : Str
  locality : Str
  size_sqm : Option Int
  room_layout : Option Str
  has_garage : Bool
  latitude : Option Int
  longitude : Option Int
  images : List Str
  date_created : Nat
  date_updated : Nat
deriving DecidableEq

/-- A raw estate record from the upstream JSON, modelled by exactly the
fields crawler.py accesses; `none` means the key is absent. -/
structure RawEstate where
  locality : Option Str
  hash_id : Option Int
  name : Option Str
  price : Option Int
  price_czk_unit : Option Str
  labels : Option (List Str)
  labelsAll : Option (List (List Str))
  gps_lat : Option Int
  gps_lon : Option Int
  links_images : Option (List (Option Str))
deriving DecidableEq

/-- The upstream response: `data.get("_embedded", {}).get("estates", [])`
(crawler.py line 95); absent keys yield the empty list. -/
structure Response where
  estates : List RawEstate
deriving DecidableEq

def defaultPriceUnit : Str := "za měsíc".toList

/-- One iteration of the loop of crawler.py lines 98-154 over a single
raw estate, on the state (store, new_apartments).  The Python falsiness
test `if not hash_id` skips both an absent id and the integer 0. -/
def processEstate (now : Nat) (st : List Apartment × List Apartment)
    (e : RawEstate) : Except Unit (List Apartment × List Apartment) :=
  let store := st.1
  let newApts := st.2
  let locality := e.locality.getD []
  if !is_prague_locality locality then .ok st
  else
    match e.hash_id with
    | none => .ok st
    | some hid =>
      if hid == 0 then .ok st
      else if store.any (fun a => a.hash_id == hid) then .ok st
      else
        let name := e.name.getD []
        let price := e.price.getD 0
        let price_unit := e.price_czk_unit.getD defaultPriceUnit
        let sl := extract_size_and_layout name
        let labels := e.labels.getD []
        let labels_all := e.labelsAll.getD []
        let garage_flag := has_garage labels labels_all
        match extract_images e.links_images with
        | .error u => .error u
        | .ok images =>
          let apartment : Apartment :=
            { hash_id := hid
              name := name
              price := price
              price_unit := price_unit
              locality := locality
              size_sqm := sl.1.map (fun n => (n : Int))
              room_layout := sl.2
              has_garage := garage_flag
              latitude := e.gps_lat
              longitude := e.gps_lon
              images := images
              date_created := now
              date_updated := now }
          .ok (store ++ [apartment], newApts ++ [apartment])

/-- The loop of crawler.py lines 98-154 over the estates list; an
exception aborts the run (the session commit never happens). -/
def processAll (now : Nat) (st : List Apartment × List Apartment) :
    List RawEstate → Except Unit (List Apartment × List Apartment)
  | [] => .ok st
  | e :: rest =>
    match processEstate now st e with
    | .error u => .error u
    | .ok st' => processAll now st' rest

/-- crawler.py lines 85-158, `SrealityCrawler.crawl_and_save_apartments`
(the spec's runOnce).  `data = none` is a failed upstream fetch
(`fetch_apartments` returns None on RequestError and HTTPStatusError,
lines 78-83).  Returns `(new_apartments, store after commit)`; on
`Except.error` the exception propagates and the rollback leaves the
store at its pre-run value. -/
def crawl_and_save_apartments (now : Nat) (data : Option Response)
    (store : List Apartment) :
    Except Unit (List Apartment × List Apartment) :=
  match data with
  | none => .ok ([], store)
  | some d =>
    match processAll now (store, []) d.estates with
    | .error u => .error u
    | .ok st => .ok (st.2, st.1)

/-- The WHERE clauses of main.py lines 66-77 applied to one row.  In
SQL a comparison or equality against a NULL column is not satisfied, so
when a size or room-layout filter is present a row whose column is NULL
is filtered out. -/
def matchesFilters (min_price max_price min_size max_size : Option Int)
    (garage_filter : Option Bool) (room_layout : Option Str)
    (a : Apartment) : Bool :=
  (match min_price with
   | none => true
   | some v => decide (v ≤ a.price)) &&
  (match max_price with
   | none => true
   | some v => decide (a.price ≤ v)) &&
  (match min_size with
   | none => true
   | some v => match a.size_sqm with
     | none => false
     | some s => decide (v ≤ s)) &&
  (match max_size with
   | none => true
   | some v => match a.size_sqm with
     | none => false
     | some s => decide (s ≤ v)) &&
  (match garage_filter with
   | none => true
   | some b => a.has_garage == b) &&
  (match room_layout with
   | none => true
   | some r => match a.room_layout with
     | none => false
     | some r0 => r0 == r)

/-- The ORDER BY key of main.py line 80: date_created descending. -/
def dateGe (x y : Apartment) : Prop := y.date_created ≤ x.date_created

instance : DecidableRel dateGe := fun x y =>
  Nat.decLe y.date_created x.date_created

instance : IsTotal Apartment dateGe :=
  ⟨fun x y => le_total y.date_created x.date_created⟩

instance : IsTrans Apartment dateGe :=
  ⟨fun _ _ _ h1 h2 => le_trans h2 h1⟩

/-- main.py lines 50-86, `get_apartments`: WHERE filters, ORDER BY
date_created DESC, OFFSET skip, LIMIT limit.  SQL leaves the relative
order of equal sort keys unspecified; insertion sort is one refinement
of it. -/
def get_apartments (skip limit : Nat)
    (min_price max_price min_size max_size : Option Int)
    (garage_filter : Option Bool) (room_layout : Option Str)
    (store : List Apartment) : List Apartment :=
  ((List.insertionSort dateGe
      (store.filter
        (matchesFilters min_price max_price min_size max_size
          garage_filter room_layout))).drop skip).take limit

/-- Python truthiness of `apt.size_sqm` (main.py line 124): None and 0
are falsy. -/
def sizeTruthy (a : Apartment) : Bool :=
  match a.size_sqm with
  | none => false
  | some s => decide (s ≠ 0)

/-- Python `round(x, 2)`.  The source rounds a float with banker's
rounding; here the average is an exact rational and rounding to two
places uses round-half-up, a divergence only at exact half-cent
averages, on which no claim depends.  0 rounds to 0 either way. -/
def round2 (q : ℚ) : ℚ := ((round (q * 100) : ℤ) : ℚ) / 100

structure StatsResult where
  total_apartments : Nat
  average_price : ℚ
  average_size : ℚ
  apartments_with_garage : Nat
deriving DecidableEq

/-- main.py lines 117-131, `get_stats`.  `avg_price` is guarded by
`if total_count > 0`; `avg_size` is guarded only by
`if total_apartments` (store non-empty), so a non-empty store whose
size-truthy subset is empty divides by zero — ZeroDivisionError,
modelled as `Except.error`. -/
def get_stats (store : List Apartment) : Except Unit StatsResult :=
  let total_count := store.length
  let avg_price : ℚ :=
    if total_count > 0 then
      ((store.map (fun a => a.price)).sum : ℚ) / (total_count : ℚ)
    else 0
  let sized := store.filter sizeTruthy
  let avg_size : Except Unit ℚ :=
    if total_count = 0 then .ok 0
    else if sized.length = 0 then .error ()
    else .ok (((sized.map (fun a => a.size_sqm.getD 0)).sum : ℚ) /
              (sized.length : ℚ))
  match avg_size with
  | .error u => .error u
  | .ok avgS =>
    .ok { total_apartments := total_count
          average_price := round2 avg_price
          average_size := round2 avgS
          apartments_with_garage := (store.filter (fun a => a.has_garage)).length }

/-! ### Spec-side predicates (formalising the claims' wording) -/

/-- The spec's size pattern with mandatory whitespace: the title
contains digits, immediately followed by (non-empty) whitespace, then
the square-meter marker. -/
def StrictOcc (cs : Str) : Prop :=
  ∃ pre ds ws suf : Str,
    cs = pre ++ ds ++ ws ++ sqmMarker ++ suf ∧
    ds ≠ [] ∧ (∀ c ∈ ds, c.isDigit = true) ∧
    ws ≠ [] ∧ (∀ c ∈ ws, isPySpace c = true)

/-- The size pattern the code actually implements (`\s*`): digits,
optional whitespace, then the square-meter marker. -/
def LaxOcc (cs : Str) : Prop :=
  ∃ pre ds ws suf : Str,
    cs = pre ++ ds ++ ws ++ sqmMarker ++ suf ∧
    ds ≠ [] ∧ (∀ c ∈ ds, c.isDigit = true) ∧
    (∀ c ∈ ws, isPySpace c = true)

/-- The size pattern anchored at the start of the string. -/
def HeadLax (cs : Str) : Prop :=
  ∃ ds ws suf : Str,
    cs = ds ++ ws ++ sqmMarker ++ suf ∧
    ds ≠ [] ∧ (∀ c ∈ ds, c.isDigit = true) ∧
    (∀ c ∈ ws, isPySpace c = true)

def kwGarazLower : Str := "garáž".toList
def kwParkovaniLower : Str := "parkování".toList

/-- The claim's keyword set, in the lower-case form both sides of the
code's comparison are reduced to. -/
def garage_keywords_lower : List Str :=
  [kwGarage, kwGarazLower, kwParkovaniLower, kwParkingLots]

/-! ### Concrete test data -/

def sPraha5 : Str := "Praha 5".toList
def sHlavni : Str := "Hlavní město Praha".toList
def sPraze10 : Str := "Praze 10".toList
def sBrno : Str := "Brno".toList
def sOstrava : Str := "Ostrava".toList
def sPrahaLower : Str := "praha".toList
def sSize35NoWs : Str := ['3', '5', 'm', '²']
def sName : Str := "Byt 2+kk, 35 m²".toList
def s2kk : Str := ['2', '+', 'k', 'k']
def preByt : Str := "Byt ".toList

def estPraha : RawEstate :=
  { locality := some sPraha5
    hash_id := some 123
    name := some sName
    price := some 25000
    price_czk_unit := none
    labels := none
    labelsAll := none
    gps_lat := none
    gps_lon := none
    links_images := none }

def estBrno : RawEstate :=
  { locality := some sBrno
    hash_id := some 77
    name := none
    price := none
    price_czk_unit := none
    labels := none
    labelsAll := none
    gps_lat := none
    gps_lon := none
    links_images := none }

def estHashZero : RawEstate :=
  { locality := some sPraha5
    hash_id := some 0
    name := none
    price := none
    price_czk_unit := none
    labels := none
    labelsAll := none
    gps_lat := none
    gps_lon := none
    links_images := none }

/-- The apartment `crawl_and_save_apartments` builds from `estPraha`
at timestamp 0. -/
def aptPraha : Apartment :=
  { hash_id := 123
    name := sName
    price := 25000
    price_unit := defaultPriceUnit
    locality := sPraha5
    size_sqm := some 35
    room_layout := some s2kk
    has_garage := false
    latitude := none
    longitude := none
    images := []
    date_created := 0
    date_updated := 0 }

def dataPraha : Option Response := some { estates := [estPraha] }

def dataBrnoPraha : Option Response := some { estates := [estBrno, estPraha] }

/-- A stored listing with a null `size_sqm`. -/
def aptNoSize : Apartment :=
  { hash_id := 1
    name := []
    price := 20000
    price_unit := defaultPriceUnit
    locality := sPraha5
    size_sqm := none
    room_layout := none
    has_garage := false
    latitude := none
    longitude := none
    images := []
    date_created := 0
    date_updated := 0 }

/-! ### Helper lemmas -/

theorem pyLower_garage_keywords :
    garage_keywords.map pyLower = garage_keywords_lower := by decide

theorem labelHasGarageKw_iff (l : Str) :
    labelHasGarageKw l = true ↔
    ∃ kw ∈ garage_keywords_lower, pyInStr kw (pyLower l) = true := by
  rw [← pyLower_garage_keywords]
  simp only [labelHasGarageKw, List.any_eq_true, List.mem_map]
  constructor
  · rintro ⟨kw, hkw, h⟩
    exact ⟨pyLower kw, ⟨kw, hkw, rfl⟩, h⟩
  · rintro ⟨kw2, ⟨kw, hkw, rfl⟩, h⟩
    exact ⟨kw, hkw, h⟩

theorem isPySpace_not_digit {c : Char} (h : isPySpace c = true) :
    c.isDigit = false := by
  simp only [isPySpace, Bool.or_eq_true, beq_iff_eq] at h
  rcases h with ((((h | h) | h) | h) | h) | h <;> subst h <;> decide

theorem takeWhile_append_all {p : Char → Bool} {ys : Str}
    (h2 : ∀ y, ys.head? = some y → p y = false) :
    ∀ xs : Str, (∀ x ∈ xs, p x = true) →
      (xs ++ ys).takeWhile p = xs ∧ (xs ++ ys).dropWhile p = ys := by
  intro xs
  induction xs with
  | nil =>
    intro _
    cases ys with
    | nil => exact ⟨rfl, rfl⟩
    | cons y t =>
      have hy := h2 y rfl
      simp [List.takeWhile_cons, List.dropWhile_cons, hy]
  | cons x t ih =>
    intro h1
    have hx : p x = true := h1 x (List.mem_cons_self x t)
    have ht := ih (fun a ha => h1 a (List.mem_cons_of_mem x ha))
    simp [List.takeWhile_cons, List.dropWhile_cons, hx, ht.1, ht.2]

theorem headLax_compute {ds ws suf : Str} (hne : ds ≠ [])
    (hdig : ∀ c ∈ ds, c.isDigit = true)
    (hws : ∀ c ∈ ws, isPySpace c = true) :
    (ds ++ (ws ++ (sqmMarker ++ suf))).takeWhile Char.isDigit = ds ∧
    ((ds ++ (ws ++ (sqmMarker ++ suf))).dropWhile Char.isDigit).dropWhile
        isPySpace = sqmMarker ++ suf := by
  have hsm : sqmMarker = 'm' :: ['²'] := rfl
  have hd : ∀ y, (ws ++ (sqmMarker ++ suf)).head? = some y →
      Char.isDigit y = false := by
    cases ws with
    | nil =>
      intro y hy
      rw [List.nil_append, hsm] at hy
      simp only [List.cons_append, List.head?_cons] at hy
      injection hy with hy
      subst hy
      decide
    | cons w t =>
      intro y hy
      simp only [List.cons_append, List.head?_cons] at hy
      injection hy with hy
      subst hy
      exact isPySpace_not_digit (hws w (List.mem_cons_self w t))
  have hm : ∀ y, (sqmMarker ++ suf).head? = some y → isPySpace y = false := by
    intro y hy
    rw [hsm] at hy
    simp only [List.cons_append, List.head?_cons] at hy
    injection hy with hy
    subst hy
    decide
  have step1 := takeWhile_append_all hd ds hdig
  have step2 := takeWhile_append_all hm ws hws
  refine ⟨step1.1, ?_⟩
  rw [step1.2, step2.2]

theorem headLax_iff (cs : Str) :
    (!(cs.takeWhile Char.isDigit).isEmpty &&
      sqmMarker.isPrefixOf
        ((cs.dropWhile Char.isDigit).dropWhile isPySpace)) = true ↔
    HeadLax cs := by
  constructor
  · intro h
    rw [Bool.and_eq_true] at h
    obtain ⟨h1, h2⟩ := h
    rw [ List.isPrefixOf_iff_prefix] at h2
    obtain ⟨suf, hsuf⟩ := h2
    refine ⟨cs.takeWhile Char.isDigit,
            (cs.dropWhile Char.isDigit).takeWhile isPySpace, suf, ?_, ?_,
            fun c hc => List.mem_takeWhile_imp hc,
            fun c hc => List.mem_takeWhile_imp hc⟩
    · have e1 := List.takeWhile_append_dropWhile Char.isDigit cs
      have e2 := List.takeWhile_append_dropWhile isPySpace
        (cs.dropWhile Char.isDigit)
      calc cs = cs.takeWhile Char.isDigit ++ cs.dropWhile Char.isDigit :=
              e1.symm
        _ = cs.takeWhile Char.isDigit ++
              ((cs.dropWhile Char.isDigit).takeWhile isPySpace ++
               (cs.dropWhile Char.isDigit).dropWhile isPySpace) := by
              rw [e2]
        _ = cs.takeWhile Char.isDigit ++
              ((cs.dropWhile Char.isDigit).takeWhile isPySpace ++
               (sqmMarker ++ suf)) := by rw [hsuf]
        _ = cs.takeWhile Char.isDigit ++
              (cs.dropWhile Char.isDigit).takeWhile isPySpace ++
              sqmMarker ++ suf := by simp [List.append_assoc]
    · intro hc
      rw [hc] at h1
      simp at h1
  · rintro ⟨ds, ws, suf, heq, hne, hdig, hws⟩
    subst heq
    have hassoc : ds ++ ws ++ sqmMarker ++ suf =
        ds ++ (ws ++ (sqmMarker ++ suf)) := by simp [List.append_assoc]
    rw [hassoc]
    obtain ⟨hc1, hc2⟩ := headLax_compute hne hdig hws
    rw [Bool.and_eq_true]
    constructor
    · rw [hc1]
      cases ds with
      | nil => exact absurd rfl hne
      | cons d dt => rfl
    · rw [hc2, List.isPrefixOf_iff_prefix]
      exact List.prefix_append _ _

theorem findSize_eq_of_headLax {ds ws suf : Str} (hne : ds ≠ [])
    (hdig : ∀ c ∈ ds, c.isDigit = true)
    (hws : ∀ c ∈ ws, isPySpace c = true) :
    findSize (ds ++ (ws ++ (sqmMarker ++ suf))) = some (digitsVal ds) := by
  obtain ⟨hc1, hc2⟩ := headLax_compute hne hdig hws
  cases ds with
  | nil => exact absurd rfl hne
  | cons d dt =>
    have hc1' : (d :: (dt ++ (ws ++ (sqmMarker ++ suf)))).takeWhile
        Char.isDigit = d :: dt := by
      rw [← List.cons_append]
      exact hc1
    have hc2' : ((d :: (dt ++ (ws ++ (sqmMarker ++ suf)))).dropWhile
        Char.isDigit).dropWhile isPySpace = sqmMarker ++ suf := by
      rw [← List.cons_append]
      exact hc2
    rw [List.cons_append]
    simp only [findSize]
    rw [hc1', hc2']
    have hpref : sqmMarker.isPrefixOf (sqmMarker ++ suf) = true :=
      List.isPrefixOf_iff_prefix.mpr (List.prefix_append _ _)
    simp [hpref]

theorem findSize_isSome_iff : ∀ cs : Str, (findSize cs).isSome = true ↔ LaxOcc cs := by
  intro cs
  induction cs with
  | nil =>
    simp only [findSize, Option.isSome_none]
    constructor
    · intro h
      exact absurd h (by decide)
    · rintro ⟨pre, ds, ws, suf, heq, hne, -, -⟩
      have hlen := congrArg List.length heq
      have hsm : sqmMarker.length = 2 := rfl
      simp only [List.length_append, List.length_nil, hsm] at hlen
      omega
  | cons c rest ih =>
    simp only [findSize]
    by_cases hc : (!((c :: rest).takeWhile Char.isDigit).isEmpty &&
        sqmMarker.isPrefixOf
          (((c :: rest).dropWhile Char.isDigit).dropWhile isPySpace)) = true
    · rw [if_pos hc]
      constructor
      · intro _
        obtain ⟨ds, ws, suf, heq, hne, hdig, hws⟩ := (headLax_iff _).mp hc
        exact ⟨[], ds, ws, suf, by simpa using heq, hne, hdig, hws⟩
      · intro _
        rfl
    · rw [if_neg hc, ih]
      constructor
      · rintro ⟨pre, ds, ws, suf, heq, hne, hdig, hws⟩
        refine ⟨c :: pre, ds, ws, suf, ?_, hne, hdig, hws⟩
        simp only [List.cons_append]
        rw [heq]
      · rintro ⟨pre, ds, ws, suf, heq, hne, hdig, hws⟩
        cases pre with
        | nil =>
          exfalso
          apply hc
          rw [headLax_iff]
          exact ⟨ds, ws, suf, by simpa using heq, hne, hdig, hws⟩
        | cons p pt =>
          simp only [List.cons_append] at heq
          injection heq with hcp hrest
          exact ⟨pt, ds, ws, suf, hrest, hne, hdig, hws⟩

theorem processEstate_ok_elim {now : Nat}
    {st st' : List Apartment × List Apartment} {e : RawEstate}
    (h : processEstate now st e = .ok st') :
    ∃ t : List Apartment, st'.1 = st.1 ++ t ∧ st'.2 = st.2 ++ t ∧
      ∀ a ∈ t, is_prague_locality a.locality = true := by
  cases hb : is_prague_locality (e.locality.getD []) with
  | false =>
    simp [processEstate, hb] at h
    exact ⟨[], by simp [← h], by simp [← h], by simp⟩
  | true =>
    simp only [processEstate, hb, Bool.not_true, Bool.false_eq_true,
      if_false] at h
    cases hh : e.hash_id with
    | none =>
      rw [hh] at h
      injection h with h'
      exact ⟨[], by simp [← h'], by simp [← h'], by simp⟩
    | some hid =>
      rw [hh] at h
      simp only at h
      cases h0 : (hid == 0) with
      | true =>
        simp [h0] at h
        exact ⟨[], by simp [← h], by simp [← h], by simp⟩
      | false =>
        simp only [h0, Bool.false_eq_true, if_false] at h
        cases hex : st.1.any (fun a => a.hash_id == hid) with
        | true =>
          simp [hex] at h
          exact ⟨[], by simp [← h], by simp [← h], by simp⟩
        | false =>
          simp only [hex, Bool.false_eq_true, if_false] at h
          cases himg : extract_images e.links_images with
          | error u => rw [himg] at h; simp at h
          | ok images =>
            rw [himg] at h
            injection h with h'
            subst h'
            refine ⟨_, rfl, rfl, ?_⟩
            intro a ha
            rw [List.mem_singleton] at ha
            subst ha
            simpa using hb

theorem processEstate_covers {now : Nat}
    {st st' : List Apartment × List Apartment} {e : RawEstate}
    (h : processEstate now st e = .ok st') {hid : Int}
    (hh : e.hash_id = some hid) (h0 : hid ≠ 0)
    (hp : is_prague_locality (e.locality.getD []) = true) :
    ∃ a ∈ st'.1, a.hash_id = hid := by
  simp only [processEstate, hp, Bool.not_true, Bool.false_eq_true,
    if_false, hh] at h
  have h0' : (hid == 0) = false := by simpa using h0
  simp only [h0', Bool.false_eq_true, if_false] at h
  cases hex : st.1.any (fun a => a.hash_id == hid) with
  | true =>
    simp [hex] at h
    obtain ⟨a, ha, hba⟩ := List.any_eq_true.mp hex
    exact ⟨a, by rw [← h]; exact ha, by simpa using hba⟩
  | false =>
    simp only [hex, Bool.false_eq_true, if_false] at h
    cases himg : extract_images e.links_images with
    | error u => rw [himg] at h; simp at h
    | ok images =>
      rw [himg] at h
      injection h with h'
      subst h'
      exact ⟨_, List.mem_append_right _ (List.mem_singleton_self _), rfl⟩

theorem processEstate_skip_existing {now : Nat} {store acc : List Apartment}
    {e : RawEstate}
    (hmem : ∀ hid : Int, e.hash_id = some hid → hid ≠ 0 →
      is_prague_locality (e.locality.getD []) = true →
      store.any (fun a => a.hash_id == hid) = true) :
    processEstate now (store, acc) e = .ok (store, acc) := by
  cases hb : is_prague_locality (e.locality.getD []) with
  | false => simp [processEstate, hb]
  | true =>
    simp only [processEstate, hb, Bool.not_true, Bool.false_eq_true,
      if_false]
    cases hh : e.hash_id with
    | none => rfl
    | some hid =>
      simp only
      cases h0 : (hid == 0) with
      | true => simp [h0]
      | false =>
        have h0' : hid ≠ 0 := by simpa using h0
        have hex := hmem hid hh h0' hb
        simp [h0, hex]

theorem processAll_ok_elim {now : Nat} : ∀ (es : List RawEstate)
    (st st' : List Apartment × List Apartment),
    processAll now st es = .ok st' →
    ∃ t : List Apartment, st'.1 = st.1 ++ t ∧ st'.2 = st.2 ++ t ∧
      ∀ a ∈ t, is_prague_locality a.locality = true := by
  intro es
  induction es with
  | nil =>
    intro st st' h
    injection h with h'
    exact ⟨[], by simp [← h'], by simp [← h'], by simp⟩
  | cons e rest ih =>
    intro st st' h
    simp only [processAll] at h
    cases hpe : processEstate now st e with
    | error u => rw [hpe] at h; simp at h
    | ok st1 =>
      rw [hpe] at h
      obtain ⟨t1, a1, b1, c1⟩ := processEstate_ok_elim hpe
      obtain ⟨t2, a2, b2, c2⟩ := ih st1 st' h
      refine ⟨t1 ++ t2, ?_, ?_, ?_⟩
      · rw [a2, a1, List.append_assoc]
      · rw [b2, b1, List.append_assoc]
      · intro a ha
        rcases List.mem_append.mp ha with h1 | h2
        · exact c1 a h1
        · exact c2 a h2

theorem processAll_covers {now : Nat} : ∀ (es : List RawEstate)
    (st st' : List Apartment × List Apartment),
    processAll now st es = .ok st' →
    ∀ e ∈ es, ∀ hid : Int, e.hash_id = some hid → hid ≠ 0 →
      is_prague_locality (e.locality.getD []) = true →
      ∃ a ∈ st'.1, a.hash_id = hid := by
  intro es
  induction es with
  | nil =>
    intro st st' _ e he
    exact absurd he (List.not_mem_nil e)
  | cons e0 rest ih =>
    intro st st' h e he hid hh h0 hp
    simp only [processAll] at h
    cases hpe : processEstate now st e0 with
    | error u => rw [hpe] at h; simp at h
    | ok st1 =>
      rw [hpe] at h
      rcases List.mem_cons.mp he with rfl | hmem
      · obtain ⟨a, ha, hah⟩ := processEstate_covers hpe hh h0 hp
        obtain ⟨t2, a2, -, -⟩ := processAll_ok_elim rest st1 st' h
        exact ⟨a, by rw [a2]; exact List.mem_append_left _ ha, hah⟩
      · exact ih st1 st' h e hmem hid hh h0 hp

theorem processAll_noop (now : Nat) (store acc : List Apartment) :
    ∀ es : List RawEstate,
    (∀ e ∈ es, ∀ hid : Int, e.hash_id = some hid → hid ≠ 0 →
      is_prague_locality (e.locality.getD []) = true →
      store.any (fun a => a.hash_id == hid) = true) →
    processAll now (store, acc) es = .ok (store, acc) := by
  intro es
  induction es with
  | nil => intro _; rfl
  | cons e rest ih =>
    intro h
    have h1 : processEstate now (store, acc) e = .ok (store, acc) :=
      processEstate_skip_existing
        (fun hid hh h0 hp => h e (List.mem_cons_self e rest) hid hh h0 hp)
    simp only [processAll, h1]
    exact ih (fun e' he' => h e' (List.mem_cons_of_mem e he'))

/-! ### Claim theorems -/

/-- C5 counterexample: the title "35m²" contains no
digits-whitespace-m² pattern (the whitespace is missing), yet
`extract_size_and_layout` returns size 35 rather than null — the
code's regex makes the whitespace optional (`\s*`). -/
theorem size_strict_whitespace_counterexample :
    (extract_size_and_layout sSize35NoWs).1 = some 35 ∧ ¬ StrictOcc sSize35NoWs := by
  refine ⟨rfl, ?_⟩
  rintro ⟨pre, ds, ws, suf, heq, hds, hdig, hwsne, hws⟩
  have hlen := congrArg List.length heq
  have hsm : sqmMarker.length = 2 := rfl
  simp only [List.length_append, hsm, sSize35NoWs, List.length_cons,
    List.length_nil] at hlen
  have hd1 : 0 < ds.length := List.length_pos.mpr hds
  have hw1 : 0 < ws.length := List.length_pos.mpr hwsne
  have hpre : pre.length = 0 := by omega
  have hsuf : suf.length = 0 := by omega
  have hds1 : ds.length = 1 := by omega
  have hws1 : ws.length = 1 := by omega
  obtain ⟨d, rfl⟩ := List.length_eq_one.mp hds1
  obtain ⟨w, rfl⟩ := List.length_eq_one.mp hws1
  rw [List.length_eq_zero.mp hpre, List.length_eq_zero.mp hsuf] at heq
  have hsm2 : sqmMarker = 'm' :: ['²'] := rfl
  rw [hsm2] at heq
  simp only [sSize35NoWs, List.nil_append, List.append_nil,
    List.cons_append, List.singleton_append, List.cons.injEq] at heq
  obtain ⟨-, hw, -⟩ := heq
  have hsp := hws w (List.mem_cons_self w [])
  rw [← hw] at hsp
  exact absurd hsp (by decide)

/-- C5 amended: `extract_size_and_layout` returns a null size exactly
when the title contains no digits-optional-whitespace-m² pattern
(the code's `\s*` makes the whitespace optional), and on a title whose
digits first occur as such a pattern it returns those digits' value
(first match). -/
theorem findSize_lax_spec :
    (∀ title : Str,
      (extract_size_and_layout title).1 = none ↔ ¬ LaxOcc title) ∧
    (∀ pre ds ws suf : Str,
      (∀ c ∈ pre, c.isDigit = false) → ds ≠ [] →
      (∀ c ∈ ds, c.isDigit = true) → (∀ c ∈ ws, isPySpace c = true) →
      (extract_size_and_layout (pre ++ ds ++ ws ++ sqmMarker ++ suf)).1 =
        some (digitsVal ds)) := by
  constructor
  · intro title
    have h := findSize_isSome_iff title
    simp only [extract_size_and_layout]
    constructor
    · intro hn hL
      have hs := h.mpr hL
      rw [hn] at hs
      exact absurd hs (by decide)
    · intro hnl
      cases hf : findSize title with
      | none => rfl
      | some v =>
        exact absurd (h.mp (by rw [hf]; rfl)) hnl
  · intro pre
    induction pre with
    | nil =>
      intro ds ws suf _ hne hdig hws
      simp only [extract_size_and_layout, List.nil_append]
      have hassoc : ds ++ ws ++ sqmMarker ++ suf =
          ds ++ (ws ++ (sqmMarker ++ suf)) := by simp [List.append_assoc]
      rw [hassoc]
      exact findSize_eq_of_headLax hne hdig hws
    | cons p pt ih =>
      intro ds ws suf hpre hne hdig hws
      have hp : p.isDigit = false := hpre p (List.mem_cons_self p pt)
      have hrec := ih ds ws suf
        (fun a ha => hpre a (List.mem_cons_of_mem p ha)) hne hdig hws
      simp only [extract_size_and_layout, List.cons_append] at hrec ⊢
      simp only [findSize, List.takeWhile_cons, hp]
      simpa using hrec

/-- C5 witness for the amended theorem: "Byt 35 m²" yields size 35. -/
theorem findSize_lax_spec_witness :
    (∀ c ∈ preByt, c.isDigit = false) ∧
    (['3', '5'] : Str) ≠ [] ∧
    (∀ c ∈ (['3', '5'] : Str), c.isDigit = true) ∧
    (∀ c ∈ ([' '] : Str), isPySpace c = true) ∧
    (extract_size_and_layout
        (preByt ++ ['3', '5'] ++ [' '] ++ sqmMarker ++ [])).1 = some 35 :=
  ⟨by decide, by decide, by decide, by decide,
   findSize_lax_spec.2 preByt ['3', '5'] [' '] []
     (by decide) (by decide) (by decide) (by decide)⟩

/-- C8: `is_prague_locality` is a case-sensitive substring test against
the fixed keyword set {"Praha", "Prague", "Praze"}: true for "Praha 5",
"Hlavní město Praha", "Praze 10"; false for "Brno", "Ostrava" and the
all-lowercase "praha". -/
theorem is_prague_locality_spec :
    (∀ s : Str, is_prague_locality s = true ↔
      ∃ kw ∈ prague_keywords, pyInStr kw s = true) ∧
    is_prague_locality sPraha5 = true ∧
    is_prague_locality sHlavni = true ∧
    is_prague_locality sPraze10 = true ∧
    is_prague_locality sBrno = false ∧
    is_prague_locality sOstrava = false ∧
    is_prague_locality sPrahaLower = false := by
  refine ⟨?_, by decide, by decide, by decide, by decide, by decide, by decide⟩
  intro s
  simp only [is_prague_locality]
  exact List.any_eq_true

/-- C7: `has_garage` returns true iff some string in the primary labels
or in some group of the nested label groups case-insensitively contains
one of the keywords "garage", "garáž", "parkování", "parking_lots"; in
particular it is false on two empty collections. -/
theorem has_garage_keyword_spec :
    (∀ (labels : List Str) (labels_all : List (List Str)),
      has_garage labels labels_all = true ↔
      ((∃ l ∈ labels, ∃ kw ∈ garage_keywords_lower,
          pyInStr kw (pyLower l) = true) ∨
       (∃ g ∈ labels_all, ∃ l ∈ g, ∃ kw ∈ garage_keywords_lower,
          pyInStr kw (pyLower l) = true))) ∧
    has_garage [] [] = false := by
  refine ⟨?_, rfl⟩
  intro labels labels_all
  simp only [has_garage, Bool.or_eq_true, List.any_eq_true, labelHasGarageKw_iff]

/-- C9: `extract_images` returns exactly the href values in order when
every element of the images sequence carries an href (empty when the
images key is absent), but an element without href makes it raise
(KeyError) instead of being skipped. -/
theorem extract_images_spec :
    (∀ urls : List Str, extract_images (some (urls.map some)) = .ok urls) ∧
    extract_images none = .ok [] ∧
    extract_images (some [(none : Option Str)]) = .error () := by
  refine ⟨?_, rfl, rfl⟩
  intro urls
  induction urls with
  | nil => rfl
  | cons u t ih =>
    simp only [extract_images, List.map_cons, collectHrefs] at ih ⊢
    rw [ih]
    rfl

/-- C3: when the upstream fetch fails (`fetch_apartments` returned
None), the run returns 0 new listings without raising and the store is
exactly as before. -/
theorem crawl_fetch_failure_no_effect :
    ∀ (now : Nat) (store : List Apartment),
      crawl_and_save_apartments now none store = .ok ([], store) :=
  fun _ _ => rfl

/-- C2: running the pipeline a second time against identical upstream
data inserts nothing: every external id stored by the first run is
found by the existence check and skipped, so the second run returns 0
new listings and leaves the store unchanged (whatever its timestamp). -/
theorem crawl_second_run_inserts_nothing :
    ∀ (now now2 : Nat) (data : Option Response)
      (store new1 s1 : List Apartment),
      crawl_and_save_apartments now data store = .ok (new1, s1) →
      crawl_and_save_apartments now2 data s1 = .ok ([], s1) := by
  intro now now2 data store new1 s1 h
  cases data with
  | none =>
    simp only [crawl_and_save_apartments]
  | some d =>
    simp only [crawl_and_save_apartments] at h ⊢
    cases hpa : processAll now (store, []) d.estates with
    | error u => rw [hpa] at h; simp at h
    | ok st =>
      rw [hpa] at h
      injection h with h'
      have hs1 : st.1 = s1 := congrArg Prod.snd h'
      have hnoop : processAll now2 (s1, []) d.estates = .ok (s1, []) := by
        apply processAll_noop
        intro e he hid hh h0 hp
        obtain ⟨a, ha, hah⟩ :=
          processAll_covers d.estates (store, []) st hpa e he hid hh h0 hp
        refine List.any_eq_true.mpr ⟨a, ?_, by simp [hah]⟩
        rw [← hs1]
        exact ha
      rw [hnoop]

/-- C2 witness: one Prague estate; the first run inserts it, the second
run against the same upstream data inserts nothing. -/
theorem crawl_second_run_inserts_nothing_witness :
    crawl_and_save_apartments 0 dataPraha [] = .ok ([aptPraha], [aptPraha]) ∧
    crawl_and_save_apartments 1 dataPraha [aptPraha] = .ok ([], [aptPraha]) :=
  ⟨rfl, crawl_second_run_inserts_nothing 0 1 dataPraha [] [aptPraha]
    [aptPraha] rfl⟩

/-- C4: every listing a run adds satisfies the Prague-locality
predicate, so the store invariant "each stored listing is Prague or was
already there" is preserved by every run, and a record with locality
"Brno" (which fails the predicate) is never inserted. -/
theorem crawl_stores_only_prague :
    ∀ (now : Nat) (data : Option Response) (store new s' : List Apartment),
      crawl_and_save_apartments now data store = .ok (new, s') →
      (∀ a ∈ new, is_prague_locality a.locality = true) ∧
      (∀ a ∈ s', a ∈ store ∨ is_prague_locality a.locality = true) ∧
      is_prague_locality sBrno = false := by
  intro now data store new s' h
  cases data with
  | none =>
    simp only [crawl_and_save_apartments] at h
    injection h with h'
    have h1 : ([] : List Apartment) = new := congrArg Prod.fst h'
    have h2 : store = s' := congrArg Prod.snd h'
    refine ⟨?_, ?_, by decide⟩
    · rw [← h1]
      intro a ha
      exact absurd ha (List.not_mem_nil a)
    · rw [← h2]
      exact fun a ha => Or.inl ha
  | some d =>
    simp only [crawl_and_save_apartments] at h
    cases hpa : processAll now (store, []) d.estates with
    | error u => rw [hpa] at h; simp at h
    | ok st =>
      rw [hpa] at h
      injection h with h'
      have hnew : st.2 = new := congrArg Prod.fst h'
      have hs : st.1 = s' := congrArg Prod.snd h'
      obtain ⟨t, a1, b1, c1⟩ := processAll_ok_elim d.estates (store, []) st hpa
      refine ⟨?_, ?_, by decide⟩
      · intro a ha
        rw [← hnew, b1] at ha
        exact c1 a (by simpa using ha)
      · intro a ha
        rw [← hs, a1] at ha
        rcases List.mem_append.mp ha with h1 | h2
        · exact Or.inl h1
        · exact Or.inr (c1 a h2)

/-- C4 witness: upstream data holding a Brno record and a Prague
record; only the Prague one is stored, and it satisfies the
predicate. -/
theorem crawl_stores_only_prague_witness :
    crawl_and_save_apartments 0 dataBrnoPraha [] =
      .ok ([aptPraha], [aptPraha]) ∧
    ((∀ a ∈ [aptPraha], is_prague_locality a.locality = true) ∧
     (∀ a ∈ [aptPraha], a ∈ ([] : List Apartment) ∨
        is_prague_locality a.locality = true) ∧
     is_prague_locality sBrno = false) :=
  ⟨rfl, crawl_stores_only_prague 0 dataBrnoPraha [] [aptPraha] [aptPraha] rfl⟩

/-- C10: a raw record whose hash_id is the integer 0 is skipped by the
falsiness test exactly as if the id were absent, and is never stored. -/
theorem hash_id_zero_skipped :
    ∀ (now : Nat) (store acc : List Apartment) (e : RawEstate),
      e.hash_id = some 0 →
      processEstate now (store, acc) e = .ok (store, acc) ∧
      processEstate now (store, acc) e =
        processEstate now (store, acc) { e with hash_id := none } ∧
      crawl_and_save_apartments now (some { estates := [e] }) store =
        .ok ([], store) := by
  intro now store acc e h
  have key : ∀ ac : List Apartment,
      processEstate now (store, ac) e = .ok (store, ac) := by
    intro ac
    cases hb : is_prague_locality (e.locality.getD []) with
    | false => simp [processEstate, hb]
    | true => simp [processEstate, hb, h]
  have h2 : processEstate now (store, acc) { e with hash_id := none } =
      .ok (store, acc) := by
    cases hb : is_prague_locality (e.locality.getD []) with
    | false => simp [processEstate, hb]
    | true => simp [processEstate, hb]
  refine ⟨key acc, (key acc).trans h2.symm, ?_⟩
  simp [crawl_and_save_apartments, processAll, key []]

/-- C10 witness: `estHashZero` has hash_id 0 and is skipped. -/
theorem hash_id_zero_skipped_witness :
    estHashZero.hash_id = some 0 ∧
    processEstate 0 ([], []) estHashZero = .ok ([], []) :=
  ⟨rfl, (hash_id_zero_skipped 0 [] [] estHashZero rfl).1⟩

/-- Decomposition of a satisfied filter conjunction into the spec's
per-filter predicates. -/
theorem matchesFilters_elim {minP maxP minS maxS : Option Int}
    {hg : Option Bool} {rl : Option Str} {a : Apartment}
    (h : matchesFilters minP maxP minS maxS hg rl a = true) :
    (∀ v, minP = some v → v ≤ a.price) ∧
    (∀ v, maxP = some v → a.price ≤ v) ∧
    (∀ v, minS = some v → ∃ s, a.size_sqm = some s ∧ v ≤ s) ∧
    (∀ v, maxS = some v → ∃ s, a.size_sqm = some s ∧ s ≤ v) ∧
    (∀ b, hg = some b → a.has_garage = b) ∧
    (∀ r, rl = some r → a.room_layout = some r) := by
  simp only [matchesFilters, Bool.and_eq_true] at h
  obtain ⟨⟨⟨⟨⟨h1, h2⟩, h3⟩, h4⟩, h5⟩, h6⟩ := h
  refine ⟨?_, ?_, ?_, ?_, ?_, ?_⟩
  · intro v hv
    subst hv
    simpa using h1
  · intro v hv
    subst hv
    simpa using h2
  · intro v hv
    subst hv
    cases hs : a.size_sqm with
    | none => rw [hs] at h3; simp at h3
    | some s => rw [hs] at h3; exact ⟨s, rfl, by simpa using h3⟩
  · intro v hv
    subst hv
    cases hs : a.size_sqm with
    | none => rw [hs] at h4; simp at h4
    | some s => rw [hs] at h4; exact ⟨s, rfl, by simpa using h4⟩
  · intro b hb
    subst hb
    simpa using h5
  · intro r hr
    subst hr
    cases hs : a.room_layout with
    | none => rw [hs] at h6; simp at h6
    | some r0 =>
      rw [hs] at h6
      exact congrArg some (by simpa using h6)

/-- C6: the filtered query returns only stored listings satisfying
every supplied predicate (inclusive ranges for price and size, equality
for garage and room layout; a NULL column never satisfies a supplied
size/layout filter), ordered by creation time descending, and absent
filters impose no restriction (with skip 0 and a large enough limit,
every stored listing is returned). -/
theorem get_apartments_spec :
    (∀ (sk lim : Nat) (minP maxP minS maxS : Option Int)
       (hg : Option Bool) (rl : Option Str) (store : List Apartment),
      (∀ a ∈ get_apartments sk lim minP maxP minS maxS hg rl store,
        a ∈ store ∧
        (∀ v, minP = some v → v ≤ a.price) ∧
        (∀ v, maxP = some v → a.price ≤ v) ∧
        (∀ v, minS = some v → ∃ s, a.size_sqm = some s ∧ v ≤ s) ∧
        (∀ v, maxS = some v → ∃ s, a.size_sqm = some s ∧ s ≤ v) ∧
        (∀ b, hg = some b → a.has_garage = b) ∧
        (∀ r, rl = some r → a.room_layout = some r)) ∧
      List.Sorted dateGe
        (get_apartments sk lim minP maxP minS maxS hg rl store)) ∧
    (∀ (store : List Apartment), ∀ a ∈ store,
      a ∈ get_apartments 0 store.length none none none none none none
        store) := by
  constructor
  · intro sk lim minP maxP minS maxS hg rl store
    constructor
    · intro a ha
      have ha1 : a ∈ List.insertionSort dateGe
          (store.filter (matchesFilters minP maxP minS maxS hg rl)) :=
        List.drop_subset _ _ (List.take_subset _ _ ha)
      have ha2 : a ∈ store.filter (matchesFilters minP maxP minS maxS hg rl) :=
        ((List.perm_insertionSort dateGe _).mem_iff).mp ha1
      obtain ⟨hmem, hmf⟩ := List.mem_filter.mp ha2
      exact ⟨hmem, matchesFilters_elim hmf⟩
    · exact List.Pairwise.sublist
        ((List.take_sublist _ _).trans (List.drop_sublist _ _))
        (List.sorted_insertionSort dateGe _)
  · intro store a ha
    have hf : store.filter (matchesFilters none none none none none none) =
        store := List.filter_eq_self.mpr (fun b _ => rfl)
    simp only [get_apartments, hf, List.drop_zero]
    have hlen : (List.insertionSort dateGe store).length = store.length :=
      (List.perm_insertionSort dateGe store).length_eq
    rw [List.take_of_length_le (le_of_eq hlen)]
    exact ((List.perm_insertionSort dateGe store).mem_iff).mpr ha

/-- C6 witness: a stored listing is returned by the unfiltered query. -/
theorem get_apartments_spec_witness :
    aptPraha ∈ ([aptPraha] : List Apartment) ∧
    aptPraha ∈ get_apartments 0 1 none none none none none none [aptPraha] :=
  ⟨List.mem_singleton_self _,
   get_apartments_spec.2 [aptPraha] aptPraha (List.mem_singleton_self _)⟩

/-- C1: on the empty store `get_stats` returns all-zero statistics, but
on a non-empty store in which no listing has a truthy size_sqm the
avg_size expression divides by zero (ZeroDivisionError) instead of
returning 0 — the guard checks that the store is non-empty, not that
the size-denominator subset is. -/
theorem stats_empty_ok_and_nosize_raises :
    get_stats [] = .ok { total_apartments := 0, average_price := 0,
                         average_size := 0, apartments_with_garage := 0 } ∧
    get_stats [aptNoSize] = .error () := by
  constructor
  · have h : round2 0 = 0 := by norm_num [round2]
    simp [get_stats, h]
  · rfl

end ApartmentsPrague
